import Mathlib

set_option maxHeartbeats 1000000

/-
Verification of the instruction-encoding and label-relocation engine of
src/asm.py (a small assembler for a custom virtual machine).  The Python
source is shallowly embedded below: every definition mirrors one function
or class of src/asm.py, with the source location noted in its doc comment.
Python runtime failures (raised exceptions, TypeError on None, IndexError,
UnboundLocalError) are modelled by the `Except AsmError` monad.
-/

namespace Asm

/-- Decidable equality on `Except`, used to evaluate the embedded
    assembler on concrete inputs inside proofs. -/
instance {ε α : Type} [DecidableEq ε] [DecidableEq α] : DecidableEq (Except ε α) :=
  fun a b =>
    match a, b with
    | .ok x, .ok y =>
      if h : x = y then .isTrue (by rw [h])
      else .isFalse (by intro hc; cases hc; exact h rfl)
    | .error x, .error y =>
      if h : x = y then .isTrue (by rw [h])
      else .isFalse (by intro hc; cases hc; exact h rfl)
    | .ok _, .error _ => .isFalse (by intro hc; cases hc)
    | .error _, .ok _ => .isFalse (by intro hc; cases hc)

/-- Lookup `xs[i]` on a Python list (read access). -/
def nth {α : Type} : List α → Nat → Option α
  | [], _ => none
  | a :: _, 0 => some a
  | _ :: rest, n + 1 => nth rest n

/-- Update `xs[i] = b` on a Python list (out of range leaves the list
    unchanged; never exercised out of range by the embedded code). -/
def setNth {α : Type} : List α → Nat → α → List α
  | [], _, _ => []
  | _ :: rest, 0, b => b :: rest
  | a :: rest, n + 1, b => a :: setNth rest n b

/-- Fatal Python runtime outcomes of the assembler, one constructor per
    distinct exception site in src/asm.py. -/
inductive AsmError where
  /-- the `Exception` raised by `size2modifier` (src/asm.py line 23); it
      carries the offending size and the stream position it reports, which
      in the source is `len(inses)` at the moment of the call. -/
  | invalidSize (size reported : Nat)
  /-- `UnboundLocalError`: `binop_mode` / `unop_mode` fall through every
      branch and read the never-assigned local `mode`. -/
  | unboundMode
  /-- `struct.error`: `struct.pack` with an unsigned format rejects values
      outside `[0, 2^width)` (src/asm.py lines 26-36). -/
  | structError (val : Int) (size : Nat)
  /-- `TypeError` from using `None` as bytes: `pack` returns `None` for an
      unsupported size, and `Mem.make` returns `None` for an inner operand
      that is neither `Imm` nor `Reg`. -/
  | noneType
  /-- `TypeError`: `StackMem.make` takes no size argument but every call
      site passes one (src/asm.py line 88). -/
  | stackMemCall
  /-- `AttributeError`: `Label.rewrite` reads `ins.size` on a zero-operand
      instruction, which has no such attribute. -/
  | attrError
  /-- `IndexError` on Python list indexing. -/
  | indexError
  /-- `TypeError`: `Label.resolve` with `def_site = None` evaluates
      `range(None)` (src/asm.py line 135). -/
  | resolveNone
  deriving Repr, DecidableEq

/-- Discriminates `Except.ok` results. -/
def okB {ε α : Type} : Except ε α → Bool
  | .ok _ => true
  | .error _ => false

/-- Little-endian byte list of `n`, exactly `k` bytes, as produced by
    `struct.pack` on an in-range value. -/
def natToLE : Nat → Nat → List Nat
  | 0, _ => []
  | k + 1, n => (n % 256) :: natToLE k (n / 256)

/-- Value of a little-endian byte list (the inverse reading used to state
    the round-trip properties). -/
def fromLE : List Nat → Nat
  | [] => 0
  | b :: rest => b + 256 * fromLE rest

/-- size2modifier, src/asm.py lines 12-24: maps an operand bit width to the
    size-class code packed into the mode byte, raising for any other width.
    The reported position is `len(inses)` at the call site. -/
def size2modifier (size reported : Nat) : Except AsmError Nat :=
  if size = 64 then .ok 64
  else if size = 32 then .ok 48
  else if size = 16 then .ok 32
  else if size = 8 then .ok 16
  else .error (.invalidSize size reported)

/-- signed2unsigned, src/asm.py lines 38-46: two's-complement
    reinterpretation via ctypes, i.e. reduction modulo `2^size`; any other
    size falls through and yields Python `None`. -/
def signed2unsigned (x : Int) (size : Nat) : Option Nat :=
  if size = 8 ∨ size = 16 ∨ size = 32 ∨ size = 64 then
    some ((x % ((2 : Int) ^ size)).toNat)
  else none

/-- pack, src/asm.py lines 48-56: dispatches to `struct.pack` with the
    unsigned little-endian format of the given width.  `struct.pack`
    range-checks: values outside `[0, 2^size)` raise `struct.error`.  An
    unsupported size falls through and returns Python `None`, which blows
    up as a `TypeError` at the caller. -/
def pack (val : Int) (size : Nat) : Except AsmError (List Nat) :=
  if size = 64 ∨ size = 32 ∨ size = 16 ∨ size = 8 then
    if 0 ≤ val ∧ val < (2 : Int) ^ size then .ok (natToLE (size / 8) val.toNat)
    else .error (.structError val size)
  else .error .noneType

/-- Operand kinds of src/asm.py: Reg (lines 58-66), Mem (71-82),
    StackMem (84-92), Imm (94-102), LabelRef (104-113).  A register is its
    numeric identifier, an immediate a Python integer, the label reference
    carries the label's identity. -/
inductive Operand where
  | reg (num : Nat)
  | imm (val : Int)
  | mem (addr : Operand)
  | stackMem (addr : Operand)
  | labelRef (name : Nat)
  deriving Repr, DecidableEq

/-- Tests whether an operand is a label-reference placeholder. -/
def isLabelRefB : Operand → Bool
  | .labelRef _ => true
  | _ => false

/-- The `make` methods of the operand classes.  Reg.make packs the one-byte
    identifier regardless of the requested size; Imm.make packs the value
    at the requested width; Mem.make delegates to an inner Imm or Reg and
    returns `None` otherwise; StackMem.make is called with a size argument
    it does not accept (TypeError); LabelRef.make packs a zero placeholder
    of the requested width. -/
def Operand.make : Operand → Nat → Except AsmError (List Nat)
  | .reg n, _ => pack (n : Int) 8
  | .imm v, size => pack v size
  | .mem (.imm v), size => pack v size
  | .mem (.reg n), _ => pack (n : Int) 8
  | .mem _, _ => .error .noneType
  | .stackMem _, _ => .error .stackMemCall
  | .labelRef _, size => pack 0 size

/-- Branch structure of binop_mode, src/asm.py lines 161-186, before the
    size class is or-ed in.  `none` models every fall-through in which the
    local `mode` is never assigned.  Note the source bug at line 172: the
    second guard of the `Mem`-destination branch tests `type(dest) is Imm`
    (always false there, since `dest` is a `Mem`) instead of
    `type(dest.addr) is Imm`, so a memory destination wrapping an immediate
    address leaves `mode` unbound. -/
def binop_modeCore : Operand → Operand → Option Nat
  | .reg _, .reg _ => some 0
  | .reg _, .mem a =>
    (match a with
     | .imm _ => some 1
     | .reg _ => some 0xc
     | _ => none)
  | .mem a, .reg _ =>
    (match a with
     | .reg _ => some 0xb
     | _ => none)
  | .reg _, .stackMem a =>
    (match a with
     | .imm _ => some 3
     | .reg _ => some 0xe
     | _ => none)
  | .stackMem a, .reg _ =>
    (match a with
     | .imm _ => some 4
     | .reg _ => some 0xd
     | _ => none)
  | .reg _, .imm _ => some 5
  | _, _ => none

/-- binop_mode, src/asm.py lines 161-186.  Python evaluates the unbound
    local `mode` before calling `size2modifier`, so the UnboundLocalError
    takes precedence over the invalid-size exception. -/
def binop_mode (dest src : Operand) (size reported : Nat) : Except AsmError Nat :=
  match binop_modeCore dest src with
  | none => .error .unboundMode
  | some m =>
    match size2modifier size reported with
    | .error e => .error e
    | .ok md => .ok (m ||| md)

/-- Branch structure of unop_mode, src/asm.py lines 240-251.  A label
    reference shares code 7 with an immediate (relative-jump mode); any
    other operand kind leaves `mode` unbound. -/
def unop_modeCore : Operand → Option Nat
  | .reg _ => some 6
  | .imm _ => some 7
  | .mem _ => some 8
  | .labelRef _ => some 7
  | _ => none

/-- unop_mode, src/asm.py lines 240-251. -/
def unop_mode (dest : Operand) (size reported : Nat) : Except AsmError Nat :=
  match unop_modeCore dest with
  | none => .error .unboundMode
  | some m =>
    match size2modifier size reported with
    | .error e => .error e
    | .ok md => .ok (m ||| md)

/-- Shape of an instruction: binary (BinOp, src/asm.py 189-205), unary
    (UnOp, 253-269), or zero-operand (Exit 150-159, Ret 283-289). -/
inductive Shape where
  | binS (dest src : Operand) (size : Nat)
  | unS (dest : Operand) (size : Nat)
  | zeroS
  deriving Repr, DecidableEq

/-- An instruction object: numeric opcode, shape, and the `bytecode`
    attribute, `none` until `make` has run.  (Exit presets its bytecode at
    construction, but phase 1 recomputes the identical value before anyone
    reads it, so the preset is unobservable.) -/
structure Ins where
  code : Nat
  shape : Shape
  bytecode : Option (List Nat)
  deriving Repr, DecidableEq

/-- The `make` methods of BinOp (src/asm.py 196-202), UnOp (260-266),
    Exit (155-156) and Ret (286-287): mode byte first, then the operand
    encodings, stored into the instruction's `bytecode` attribute. -/
def Ins.make (reported : Nat) (i : Ins) : Except AsmError Ins :=
  match i.shape with
  | .binS dest src size =>
    (match binop_mode dest src size reported with
     | .error e => .error e
     | .ok mode =>
       match Operand.make dest size with
       | .error e => .error e
       | .ok d =>
         match Operand.make src size with
         | .error e => .error e
         | .ok s => .ok { i with bytecode := some (i.code :: mode :: (d ++ s)) })
  | .unS dest size =>
    (match unop_mode dest size reported with
     | .error e => .error e
     | .ok mode =>
       match Operand.make dest size with
       | .error e => .error e
       | .ok d => .ok { i with bytecode := some (i.code :: mode :: d) })
  | .zeroS => .ok { i with bytecode := some [i.code] }

/-- A Label object, src/asm.py lines 115-148: identity, the use sites
    recorded by `ref` in reference order, the definition site set by `tag`,
    and the absolute byte offset set by `resolve`. -/
structure Label where
  name : Nat
  use_sites : List Nat
  def_site : Option Nat
  resolved : Option Nat
  deriving Repr, DecidableEq

/-- The global module state of src/asm.py: the ordered instruction stream
    `inses`, the label objects (identified by index into `store`; Python
    aliases the objects, the store models that heap), and the global
    `labels` list populated by `tag`, holding label identities in tag
    order, duplicates included. -/
structure AsmState where
  inses : List Ins
  store : List Label
  tagged : List Nat
  deriving Repr, DecidableEq

/-- Byte length `len(ins.bytecode)`; reading it before `make` ran is a
    Python `TypeError` on `None`. -/
def bclen (i : Ins) : Except AsmError Nat :=
  match i.bytecode with
  | some b => .ok b.length
  | none => .error .noneType

/-- Offset-summation loop `for i in range(n): off += len(inses[i].bytecode)`
    shared by `Label.resolve` and `Label.rewrite`; running past the end of
    the stream is an `IndexError`. -/
def sumLen : List Ins → Nat → Except AsmError Nat
  | _, 0 => .ok 0
  | [], _ + 1 => .error .indexError
  | i :: rest, n + 1 =>
    (match bclen i with
     | .error e => .error e
     | .ok l =>
       match sumLen rest n with
       | .error e => .error e
       | .ok r => .ok (l + r))

/-- Label.resolve, src/asm.py lines 132-137: the resolved absolute offset
    is the summed byte length of all instructions before the definition
    site.  A never-set definition site is `range(None)`, a TypeError. -/
def Label.resolve (inses : List Ins) (lab : Label) : Except AsmError Label :=
  match lab.def_site with
  | none => .error .resolveNone
  | some d =>
    (match sumLen inses d with
     | .error e => .error e
     | .ok off => .ok { lab with resolved := some off })

/-- Body of the use-site loop of Label.rewrite, src/asm.py lines 141-148:
    compute the byte offset just past instruction `use`, overwrite that
    instruction's destination with an immediate holding the two's-
    complement displacement, and re-run its `make`.  Reading `ins.size` on
    a zero-operand instruction is an AttributeError; an unsupported size
    would make `signed2unsigned` return None, and the subsequent re-encode
    surface the invalid-size exception. -/
def rewriteOne (reported r : Nat) (inses : List Ins) (use : Nat) :
    Except AsmError (List Ins) :=
  match sumLen inses (use + 1) with
  | .error e => .error e
  | .ok offset =>
    match nth inses use with
    | none => .error .indexError
    | some ins =>
      match ins.shape with
      | .binS _ src size =>
        (match signed2unsigned ((r : Int) - (offset : Int)) size with
         | some v =>
           (match Ins.make reported { ins with shape := .binS (.imm (v : Int)) src size } with
            | .error e => .error e
            | .ok ins2 => .ok (setNth inses use ins2))
         | none => .error (.invalidSize size reported))
      | .unS _ size =>
        (match signed2unsigned ((r : Int) - (offset : Int)) size with
         | some v =>
           (match Ins.make reported { ins with shape := .unS (.imm (v : Int)) size } with
            | .error e => .error e
            | .ok ins2 => .ok (setNth inses use ins2))
         | none => .error (.invalidSize size reported))
      | .zeroS => .error .attrError

/-- Use-site loop of Label.rewrite, src/asm.py lines 141-148. -/
def rewriteUses (reported r : Nat) (inses : List Ins) :
    List Nat → Except AsmError (List Ins)
  | [] => .ok inses
  | u :: rest =>
    (match rewriteOne reported r inses u with
     | .error e => .error e
     | .ok inses2 => rewriteUses reported r inses2 rest)

/-- Label.rewrite, src/asm.py lines 139-148.  `self.resolved` is read for
    the displacement; it is always set because phase 2 resolves every label
    in the `labels` list before phase 3 runs. -/
def Label.rewrite (reported : Nat) (lab : Label) (inses : List Ins) :
    Except AsmError (List Ins) :=
  match lab.resolved with
  | none => .error .noneType
  | some r => rewriteUses reported r inses lab.use_sites

/-- Phase 1 of assemble, src/asm.py lines 414-416: encode every
    instruction in stream order.  `reported` is `len(inses)` during the
    whole pass. -/
def encodeAll (reported : Nat) : List Ins → Except AsmError (List Ins)
  | [] => .ok []
  | i :: rest =>
    (match Ins.make reported i with
     | .error e => .error e
     | .ok i2 =>
       match encodeAll reported rest with
       | .error e => .error e
       | .ok rest2 => .ok (i2 :: rest2))

/-- Phase 2 of assemble, src/asm.py lines 418-420: resolve every label in
    the `labels` list, in tag order, mutating the label objects. -/
def resolveAll (inses : List Ins) (store : List Label) :
    List Nat → Except AsmError (List Label)
  | [] => .ok store
  | l :: rest =>
    (match nth store l with
     | none => .error .indexError
     | some lab =>
       match Label.resolve inses lab with
       | .error e => .error e
       | .ok lab2 => resolveAll inses (setNth store l lab2) rest)

/-- Phase 3 of assemble, src/asm.py lines 422-424: rewrite the use sites
    of every label in the `labels` list, in tag order. -/
def rewriteAll (reported : Nat) (store : List Label) (inses : List Ins) :
    List Nat → Except AsmError (List Ins)
  | [] => .ok inses
  | l :: rest =>
    (match nth store l with
     | none => .error .indexError
     | some lab =>
       match Label.rewrite reported lab inses with
       | .error e => .error e
       | .ok inses2 => rewriteAll reported store inses2 rest)

/-- Phase 4 of assemble, src/asm.py lines 426-432: concatenate every
    instruction's bytecode in stream order. -/
def concatAll : List Ins → Except AsmError (List Nat)
  | [] => .ok []
  | i :: rest =>
    (match i.bytecode with
     | none => .error .noneType
     | some b =>
       match concatAll rest with
       | .error e => .error e
       | .ok r => .ok (b ++ r))

/-- assemble, src/asm.py lines 411-432: the four-phase pipeline.  It
    returns the mutated module state together with the flat byte buffer. -/
def assemble (s : AsmState) : Except AsmError (AsmState × List Nat) :=
  match encodeAll s.inses.length s.inses with
  | .error e => .error e
  | .ok inses1 =>
    match resolveAll inses1 s.store s.tagged with
    | .error e => .error e
    | .ok store2 =>
      match rewriteAll s.inses.length store2 inses1 s.tagged with
      | .error e => .error e
      | .ok inses3 =>
        match concatAll inses3 with
        | .error e => .error e
        | .ok buf => .ok ({ s with inses := inses3, store := store2 }, buf)

/-- Operand expressions as a client writes them in an emit call: the typed
    operand constructors plus `ref(label)`, which records a use site as a
    side effect of the call (src/asm.py lines 406-408). -/
inductive OpSpec where
  | regS (n : Nat)
  | immS (v : Int)
  | memS (a : OpSpec)
  | stackS (a : OpSpec)
  | refS (l : Nat)
  deriving Repr, DecidableEq

/-- One call of the construction API: emit a binary instruction (the
    generated binop helpers, src/asm.py lines 349-357), emit a unary
    instruction (lines 377-385), emit a zero-operand instruction (lines
    392-398), or `tag` a label (lines 400-404). -/
inductive Cmd where
  | binC (code : Nat) (size : Nat) (dest src : OpSpec)
  | unC (code : Nat) (size : Nat) (dest : OpSpec)
  | zeroC (code : Nat)
  | tagC (l : Nat)
  deriving Repr, DecidableEq

/-- Evaluating an operand expression at index `idx = len(inses)`:
    `ref(label)` appends `idx` to the label's use sites and produces the
    LabelRef placeholder (src/asm.py lines 128-130, 406-408). -/
def evalOp (store : List Label) (idx : Nat) : OpSpec → List Label × Operand
  | .regS n => (store, .reg n)
  | .immS v => (store, .imm v)
  | .memS a =>
    (let p := evalOp store idx a
     (p.1, .mem p.2))
  | .stackS a =>
    (let p := evalOp store idx a
     (p.1, .stackMem p.2))
  | .refS l =>
    (match nth store l with
     | some lab =>
       (setNth store l { lab with use_sites := lab.use_sites ++ [idx] }, .labelRef l)
     | none => (store, .labelRef l))

/-- One construction call applied to the module state.  Operand
    expressions are evaluated first (recording use sites at the index the
    new instruction will occupy), then the instruction object is appended;
    `tag` sets the label's definition site to the current stream length and
    appends the label to the `labels` list (overwriting silently on a
    repeated tag, src/asm.py lines 122-123 and 400-404). -/
def buildStep (s : AsmState) : Cmd → AsmState
  | .binC code size d sp =>
    (let idx := s.inses.length
     let p1 := evalOp s.store idx d
     let p2 := evalOp p1.1 idx sp
     { s with store := p2.1,
              inses := s.inses ++ [⟨code, .binS p1.2 p2.2 size, none⟩] })
  | .unC code size d =>
    (let idx := s.inses.length
     let p1 := evalOp s.store idx d
     { s with store := p1.1,
              inses := s.inses ++ [⟨code, .unS p1.2 size, none⟩] })
  | .zeroC code =>
    { s with inses := s.inses ++ [⟨code, .zeroS, none⟩] }
  | .tagC l =>
    (match nth s.store l with
     | some lab =>
       { s with store := setNth s.store l { lab with def_site := some s.inses.length },
                tagged := s.tagged ++ [l] }
     | none => { s with tagged := s.tagged ++ [l] })

/-- Fresh module state with `k` labels created by `Label(name)` and empty
    instruction and `labels` lists. -/
def initState (k : Nat) : AsmState :=
  { inses := [],
    store := (List.range k).map (fun i => ⟨i, [], none, none⟩),
    tagged := [] }

/-- Running a whole construction-call sequence from a fresh module state. -/
def build (k : Nat) (cmds : List Cmd) : AsmState :=
  cmds.foldl buildStep (initState k)

/-- The externally observable artifact: build the program, assemble it,
    and keep only the byte buffer. -/
def assembleProgram (k : Nat) (cmds : List Cmd) : Except AsmError (List Nat) :=
  match assemble (build k cmds) with
  | .ok p => .ok p.2
  | .error e => .error e

/-- Two's-complement signed reading of an unsigned value of width `w`,
    used to state the displacement round-trip property of the spec. -/
def decodeSigned (u : Nat) (w : Nat) : Int :=
  if u < 2 ^ (w - 1) then (u : Int) else (u : Int) - 2 ^ w

/-- Byte length of the instruction at index `j`, `none` while unset. -/
def lenAt (inses : List Ins) (j : Nat) : Option Nat :=
  match nth inses j with
  | some i => i.bytecode.map List.length
  | none => none

/-- True when some construction call tags a label. -/
def hasTag : List Cmd → Bool
  | [] => false
  | .tagC _ :: _ => true
  | _ :: rest => hasTag rest

/-- Projection used to observe a label's resolved offset in an assembly
    result. -/
def resolvedOf (r : Except AsmError (AsmState × List Nat)) (l : Nat) :
    Option (Option Nat) :=
  match r with
  | .ok p => (nth p.1.store l).map Label.resolved
  | .error _ => none

/-- The concrete undefined-label scenario of the spec: a jmp referencing a
    label that is never tagged. -/
def cmds3 : List Cmd := [.unC 0x13 8 (.refS 0)]

/-- The concrete scenario of spec section 8: mov(64, r0, Imm 1); a jmp
    referencing L placed before mark(L); mark(L); mov(64, r1, Imm 2).  The
    jmp takes an 8-bit operand as in the repository's example programs. -/
def cmds5 : List Cmd :=
  [.binC 1 64 (.regS 0) (.immS 1),
   .unC 0x13 8 (.refS 0),
   .tagC 0,
   .binC 1 64 (.regS 1) (.immS 2)]

/-- A program whose first emit call supplies the unsupported operand size
    57, followed by a well-formed mov. -/
def cmds7 : List Cmd :=
  [.binC 1 57 (.regS 0) (.regS 1), .binC 1 64 (.regS 0) (.regS 1)]

/-- A program that tags the same label twice, around an exit. -/
def cmds8 : List Cmd := [.tagC 0, .zeroC 0, .tagC 0]

/-- A mov whose destination operand is a label reference. -/
def cmds10 : List Cmd := [.binC 1 64 (.refS 0) (.regS 0), .tagC 0]

/-- A one-jmp program with a 64-bit label operand, used as a concrete
    instance of length stability. -/
def cmds4w : List Cmd := [.unC 0x13 64 (.refS 0), .tagC 0]

/-- A one-instruction encoded stream holding a label-reference jmp, used
    as a concrete instance of the displacement round trip. -/
def insesC2 : List Ins := [⟨0x13, .unS (.labelRef 0) 8, some [19, 23, 0]⟩]

/-- Occurrence of a label reference inside an operand tree (looking
    through Mem and StackMem wrappers). -/
def opMentionsB : Operand → Nat → Bool
  | .labelRef l2, l => l2 == l
  | .mem a, l => opMentionsB a l
  | .stackMem a, l => opMentionsB a l
  | _, _ => false

/-- Occurrence of a label reference among an instruction's operands. -/
def insMentionsB (i : Ins) (l : Nat) : Bool :=
  match i.shape with
  | .binS d sp _ => opMentionsB d l || opMentionsB sp l
  | .unS d _ => opMentionsB d l
  | .zeroS => false

/-- Builder invariant: every recorded use site of every label points at an
    existing instruction whose operands contain that label's reference. -/
def InvUses (s : AsmState) : Prop :=
  ∀ l lab, nth s.store l = some lab → ∀ u, u ∈ lab.use_sites →
    ∃ i, nth s.inses u = some i ∧ insMentionsB i l = true

/-- Rewrite-phase invariant relative to the phase-1 output `l1`: byte
    lengths agree pointwise with `l1`, and every use site of every label
    holds a unary instruction of a supported width whose bytecode length is
    2 + width/8. -/
def RInv (store2 : List Label) (l1 inses : List Ins) : Prop :=
  (∀ j, lenAt inses j = lenAt l1 j) ∧
  ∀ l lab, nth store2 l = some lab → ∀ u, u ∈ lab.use_sites →
    ∃ c dest size bc, (size = 8 ∨ size = 16 ∨ size = 32 ∨ size = 64) ∧
      nth inses u = some ⟨c, .unS dest size, some bc⟩ ∧ bc.length = 2 + size / 8

theorem nth_lt_length {α : Type} (xs : List α) (n : Nat) (a : α)
    (h : nth xs n = some a) : n < xs.length := by
  induction xs generalizing n with
  | nil => simp [nth] at h
  | cons x rest ih =>
    cases n with
    | zero => simp
    | succ m => simpa using Nat.succ_lt_succ (ih m (by simpa [nth] using h))

theorem length_setNth {α : Type} (xs : List α) (n : Nat) (b : α) :
    (setNth xs n b).length = xs.length := by
  induction xs generalizing n with
  | nil => simp [setNth]
  | cons x rest ih =>
    cases n with
    | zero => simp [setNth]
    | succ m => simp [setNth, ih]

theorem nth_setNth_self {α : Type} (xs : List α) (n : Nat) (b : α)
    (h : n < xs.length) : nth (setNth xs n b) n = some b := by
  induction xs generalizing n with
  | nil => simp at h
  | cons x rest ih =>
    cases n with
    | zero => simp [setNth, nth]
    | succ m => simpa [setNth, nth] using ih m (by simpa using h)

theorem nth_setNth_other {α : Type} (xs : List α) (n m : Nat) (b : α)
    (h : n ≠ m) : nth (setNth xs n b) m = nth xs m := by
  induction xs generalizing n m with
  | nil => simp [setNth]
  | cons x rest ih =>
    cases n with
    | zero =>
      cases m with
      | zero => exact absurd rfl h
      | succ m2 => simp [setNth, nth]
    | succ n2 =>
      cases m with
      | zero => simp [setNth, nth]
      | succ m2 => simpa [setNth, nth] using ih n2 m2 (fun hc => h (by simp [hc]))

theorem nth_append_left {α : Type} (xs ys : List α) (n : Nat)
    (h : n < xs.length) : nth (xs ++ ys) n = nth xs n := by
  induction xs generalizing n with
  | nil => simp at h
  | cons x rest ih =>
    cases n with
    | zero => simp [nth]
    | succ m => simpa [nth] using ih m (by simpa using h)

theorem nth_append_self {α : Type} (xs : List α) (a : α) :
    nth (xs ++ [a]) xs.length = some a := by
  induction xs with
  | nil => simp [nth]
  | cons x rest ih => simpa [nth] using ih

theorem natToLE_length (k n : Nat) : (natToLE k n).length = k := by
  induction k generalizing n with
  | zero => rfl
  | succ k ih => simp [natToLE, ih]

theorem fromLE_natToLE (k n : Nat) (h : n < 2 ^ (8 * k)) :
    fromLE (natToLE k n) = n := by
  induction k generalizing n with
  | zero =>
    have h0 : n = 0 := Nat.lt_one_iff.mp (by simpa using h)
    subst h0; rfl
  | succ k ih =>
    have h2 : n / 256 < 2 ^ (8 * k) := by
      have hp : (2 : Nat) ^ (8 * (k + 1)) = 2 ^ (8 * k) * 256 := by
        rw [Nat.mul_succ, pow_add]; norm_num
      refine (Nat.div_lt_iff_lt_mul (by norm_num)).mpr ?_
      rw [← hp]; exact h
    simp only [natToLE, fromLE]
    rw [ih _ h2]
    exact Nat.mod_add_div n 256

theorem toNat_lt_pow (v : Int) (w : Nat) (h0 : 0 ≤ v) (hlt : v < (2 : Int) ^ w) :
    v.toNat < 2 ^ w := by
  have hv : ((v.toNat : Int)) = v := Int.toNat_of_nonneg h0
  have h2 : ((v.toNat : Int)) < ((2 ^ w : Nat) : Int) := by rw [hv]; push_cast; exact hlt
  exact_mod_cast h2

theorem sign_roundtrip (w r after : Nat) :
    (decodeSigned ((((r : Int) - (after : Int)) % (2 : Int) ^ w).toNat) w + (after : Int)) %
        (2 : Int) ^ w = (r : Int) % (2 : Int) ^ w := by
  have hm : (0 : Int) < 2 ^ w := by positivity
  have h0 : (0 : Int) ≤ ((r : Int) - (after : Int)) % (2 : Int) ^ w :=
    Int.emod_nonneg _ (ne_of_gt hm)
  have hvn : (((((r : Int) - (after : Int)) % (2 : Int) ^ w).toNat : Int))
      = ((r : Int) - (after : Int)) % (2 : Int) ^ w := Int.toNat_of_nonneg h0
  have hbase : (((r : Int) - (after : Int)) % (2 : Int) ^ w + (after : Int)) % (2 : Int) ^ w
      = (r : Int) % (2 : Int) ^ w := by
    have h1 : (((r : Int) - (after : Int)) % (2 : Int) ^ w) % (2 : Int) ^ w
        = ((r : Int) - (after : Int)) % (2 : Int) ^ w :=
      Int.emod_emod_of_dvd _ (dvd_refl _)
    have h2 := Int.ModEq.add_right (after : Int) h1
    have h5 : (r : Int) - (after : Int) + (after : Int) = (r : Int) := by ring
    calc (((r : Int) - (after : Int)) % (2 : Int) ^ w + (after : Int)) % (2 : Int) ^ w
        = (((r : Int) - (after : Int)) + (after : Int)) % (2 : Int) ^ w := h2
      _ = (r : Int) % (2 : Int) ^ w := by rw [h5]
  simp only [decodeSigned]
  split
  · rw [hvn]; exact hbase
  · have h4 : (((((r : Int) - (after : Int)) % (2 : Int) ^ w) - (2 : Int) ^ w) % (2 : Int) ^ w)
        = (((r : Int) - (after : Int)) % (2 : Int) ^ w) % (2 : Int) ^ w := by
      rw [Int.sub_emod, Int.emod_self, sub_zero, Int.emod_emod_of_dvd _ (dvd_refl _)]
    have h6 := Int.ModEq.add_right (after : Int) h4
    rw [hvn]
    calc ((((r : Int) - (after : Int)) % (2 : Int) ^ w - (2 : Int) ^ w) + (after : Int)) %
            (2 : Int) ^ w
        = (((r : Int) - (after : Int)) % (2 : Int) ^ w + (after : Int)) % (2 : Int) ^ w := h6
      _ = (r : Int) % (2 : Int) ^ w := hbase

theorem size2modifier_cases (size reported md : Nat)
    (h : size2modifier size reported = .ok md) :
    (size = 64 ∧ md = 64) ∨ (size = 32 ∧ md = 48) ∨
      (size = 16 ∧ md = 32) ∨ (size = 8 ∧ md = 16) := by
  unfold size2modifier at h
  split_ifs at h <;> simp_all

theorem okB_ok {ε α : Type} (r : Except ε α) (h : okB r = true) : ∃ a, r = .ok a := by
  cases r with
  | ok a => exact ⟨a, rfl⟩
  | error e => simp [okB] at h

theorem encodeAll_ok_nth (N : Nat) (inses l1 : List Ins)
    (h : encodeAll N inses = .ok l1) :
    l1.length = inses.length ∧
      ∀ j i, nth inses j = some i → ∃ i2, Ins.make N i = .ok i2 ∧ nth l1 j = some i2 := by
  induction inses generalizing l1 with
  | nil =>
    simp only [encodeAll] at h
    cases h
    exact ⟨rfl, fun j i hj => by simp [nth] at hj⟩
  | cons i rest ih =>
    simp only [encodeAll] at h
    cases hm : Ins.make N i with
    | error e => rw [hm] at h; simp at h
    | ok i2 =>
      rw [hm] at h
      cases hr : encodeAll N rest with
      | error e => rw [hr] at h; simp at h
      | ok rest2 =>
        rw [hr] at h
        simp only [] at h
        cases h
        obtain ⟨hlen, hnth⟩ := ih rest2 hr
        refine ⟨by simp [hlen], ?_⟩
        intro j x hx
        cases j with
        | zero =>
          have hxi : i = x := by simpa [nth] using hx
          subst hxi
          exact ⟨i2, hm, by simp [nth]⟩
        | succ m =>
          obtain ⟨i3, hmk, hn⟩ := hnth m x (by simpa [nth] using hx)
          exact ⟨i3, hmk, by simpa [nth] using hn⟩

theorem assemble_encode_error (s : AsmState) (e : AsmError)
    (h : encodeAll s.inses.length s.inses = .error e) : assemble s = .error e := by
  unfold assemble
  rw [h]

theorem encodeAll_append_error (N : Nat) (pre : List Ins) (i : Ins) (post : List Ins)
    (e : AsmError)
    (hok : pre.all (fun x => okB (Ins.make N x)) = true)
    (he : Ins.make N i = .error e) :
    encodeAll N (pre ++ i :: post) = .error e := by
  induction pre with
  | nil => simp only [List.nil_append, encodeAll]; rw [he]
  | cons x rest ih =>
    simp only [List.all_cons, Bool.and_eq_true] at hok
    obtain ⟨x2, hx2⟩ := okB_ok _ hok.1
    simp only [List.cons_append, encodeAll, hx2, List.append_eq]
    rw [ih hok.2]

theorem make_invalid_size (reported c size : Nat) (d sp : Operand) (m : Nat)
    (bc : Option (List Nat))
    (hm : binop_modeCore d sp = some m)
    (h64 : size ≠ 64) (h32 : size ≠ 32) (h16 : size ≠ 16) (h8 : size ≠ 8) :
    Ins.make reported ⟨c, .binS d sp size, bc⟩ = .error (.invalidSize size reported) := by
  simp [Ins.make, binop_mode, hm, size2modifier, h64, h32, h16, h8]

theorem buildStep_tagged_of_not_tag (s : AsmState) (c : Cmd)
    (h : ∀ l, c ≠ .tagC l) : (buildStep s c).tagged = s.tagged := by
  cases c with
  | binC code size d sp => simp [buildStep]
  | unC code size d => simp [buildStep]
  | zeroC code => simp [buildStep]
  | tagC l => exact absurd rfl (h l)

theorem build_tagged_nil_aux (cmds : List Cmd) (s : AsmState)
    (h : hasTag cmds = false) (hs : s.tagged = []) :
    (cmds.foldl buildStep s).tagged = [] := by
  induction cmds generalizing s with
  | nil => simpa using hs
  | cons c rest ih =>
    cases c with
    | tagC l => simp [hasTag] at h
    | binC code size d sp =>
      exact ih _ (by simpa [hasTag] using h) (by simp [buildStep, hs])
    | unC code size d =>
      exact ih _ (by simpa [hasTag] using h) (by simp [buildStep, hs])
    | zeroC code =>
      exact ih _ (by simpa [hasTag] using h) (by simp [buildStep, hs])

theorem build_tagged_nil (k : Nat) (cmds : List Cmd) (h : hasTag cmds = false) :
    (build k cmds).tagged = [] :=
  build_tagged_nil_aux cmds (initState k) h rfl

/-- C1 evaluation: a binary instruction whose destination is a memory
    operand wrapping an immediate address, with a register source, does not
    receive addressing-mode code 0x2 as the spec's table demands; the
    `mode` local of binop_mode is never assigned (the guard at src/asm.py
    line 172 tests `type(dest) is Imm` instead of `type(dest.addr) is Imm`)
    and the encoder dies with an UnboundLocalError. -/
theorem claim_C1_bug :
    binop_mode (.mem (.imm 4096)) (.reg 0) 64 3 = .error .unboundMode := rfl

/-- C9: assembly is deterministic — two runs of the full four-phase
    pipeline over the identical construction-call sequence produce the same
    byte buffer. -/
theorem claim_C9 (k : Nat) (cmds : List Cmd) (b1 b2 : List Nat)
    (h1 : assembleProgram k cmds = .ok b1)
    (h2 : assembleProgram k cmds = .ok b2) : b1 = b2 := by
  rw [h1] at h2
  cases h2
  rfl

/-- Witness for C9 at a concrete one-instruction program. -/
theorem claim_C9_witness :
    assembleProgram 0 [Cmd.zeroC 0] = .ok [0] ∧ ([0] : List Nat) = [0] :=
  ⟨by decide, claim_C9 0 [Cmd.zeroC 0] [0] [0] (by decide) (by decide)⟩

/-- C3 counterexample: a program whose only label is referenced by a jmp
    but never tagged assembles successfully and returns a byte buffer in
    which the reference keeps its zero placeholder, instead of failing with
    an unresolved-symbol error as the claim demands. -/
theorem claim_C3_counterexample :
    assemble (build 1 cmds3) =
      .ok (⟨[⟨0x13, .unS (.labelRef 0) 8, some [19, 23, 0]⟩],
            [⟨0, [0], none, none⟩], []⟩,
           [19, 23, 0]) := by decide

/-- C3 amended: a label that is referenced but never tagged never enters
    the `labels` list, so the resolve and rewrite phases skip it entirely;
    whenever phase-1 encoding succeeds, assemble() succeeds and returns the
    phase-1 bytes (with the zero placeholder intact) rather than failing. -/
theorem claim_C3_amended (k : Nat) (cmds : List Cmd) (inses1 : List Ins) (buf : List Nat)
    (h1 : hasTag cmds = false)
    (h2 : encodeAll (build k cmds).inses.length (build k cmds).inses = .ok inses1)
    (h3 : concatAll inses1 = .ok buf) :
    assemble (build k cmds) = .ok ({ build k cmds with inses := inses1 }, buf) := by
  have ht := build_tagged_nil k cmds h1
  unfold assemble
  simp only [h2, ht, resolveAll, rewriteAll, h3]

/-- Witness for the amended C3 at the concrete undefined-label scenario. -/
theorem claim_C3_amended_witness :
    assemble (build 1 cmds3) =
      .ok ({ build 1 cmds3 with
             inses := [⟨0x13, .unS (.labelRef 0) 8, some [19, 23, 0]⟩] },
           [19, 23, 0]) :=
  claim_C3_amended 1 cmds3 [⟨0x13, .unS (.labelRef 0) 8, some [19, 23, 0]⟩]
    [19, 23, 0] (by decide) (by decide) (by decide)

/-- C5 counterexample: in the spec's concrete scenario the label L
    resolves to absolute offset 14, not 9 (the 64-bit mov is 11 bytes:
    opcode, mode, one register byte, eight immediate bytes; the 8-bit jmp
    is 3 bytes). -/
theorem claim_C5_counterexample :
    resolvedOf (assemble (build 1 cmds5)) 0 = some (some 14) ∧
      resolvedOf (assemble (build 1 cmds5)) 0 ≠ some (some 9) := by decide

/-- C5 amended: in the concrete scenario L resolves to 14 and the jmp's
    patched immediate equals the two's-complement reinterpretation of
    (resolved offset − byte offset just after the jmp), here
    signed2unsigned(14 − 14) = 0. -/
theorem claim_C5_amended :
    assemble (build 1 cmds5) =
      .ok (⟨[⟨1, .binS (.reg 0) (.imm 1) 64, some [1, 69, 0, 1, 0, 0, 0, 0, 0, 0, 0]⟩,
             ⟨19, .unS (.imm 0) 8, some [19, 23, 0]⟩,
             ⟨1, .binS (.reg 1) (.imm 2) 64, some [1, 69, 1, 2, 0, 0, 0, 0, 0, 0, 0]⟩],
            [⟨0, [1], some 2, some 14⟩],
            [0]⟩,
           [1, 69, 0, 1, 0, 0, 0, 0, 0, 0, 0, 19, 23, 0,
            1, 69, 1, 2, 0, 0, 0, 0, 0, 0, 0]) ∧
      signed2unsigned ((14 : Int) - 14) 8 = some 0 := by decide

/-- C6 counterexample: encoding an immediate does not wrap out-of-range
    values; `struct.pack` rejects them, so Imm(-1) at width 64 and Imm(256)
    at width 8 both raise instead of encoding value mod 2^width. -/
theorem claim_C6_counterexample :
    Operand.make (.imm (-1)) 64 = .error (.structError (-1) 64) ∧
      Operand.make (.imm 256) 8 = .error (.structError 256 8) := by decide

/-- C6 amended: for widths 8/16/32/64, encoding an immediate succeeds
    exactly when the value lies in [0, 2^width), in which case it yields
    width/8 little-endian bytes that decode back to the value; any other
    value raises struct.error rather than wrapping. -/
theorem claim_C6_amended (v : Int) (size : Nat)
    (h : size = 8 ∨ size = 16 ∨ size = 32 ∨ size = 64) :
    (0 ≤ v ∧ v < (2 : Int) ^ size →
      Operand.make (.imm v) size = .ok (natToLE (size / 8) v.toNat) ∧
      (natToLE (size / 8) v.toNat).length = size / 8 ∧
      (fromLE (natToLE (size / 8) v.toNat) : Int) = v) ∧
    (¬(0 ≤ v ∧ v < (2 : Int) ^ size) →
      Operand.make (.imm v) size = .error (.structError v size)) := by
  have hvalid : size = 64 ∨ size = 32 ∨ size = 16 ∨ size = 8 := by tauto
  constructor
  · rintro ⟨h0, hlt⟩
    refine ⟨?_, natToLE_length _ _, ?_⟩
    · show pack v size = _
      unfold pack
      rw [if_pos hvalid, if_pos ⟨h0, hlt⟩]
    · have hb : v.toNat < 2 ^ size := toNat_lt_pow v size h0 hlt
      rcases h with h | h | h | h <;> subst h <;>
        rw [fromLE_natToLE _ _ hb] <;> exact Int.toNat_of_nonneg h0
  · intro hn
    show pack v size = _
    unfold pack
    rw [if_pos hvalid, if_neg hn]

/-- Witness for the amended C6 at value 5, width 8. -/
theorem claim_C6_amended_witness :
    Operand.make (.imm 5) 8 = .ok (natToLE (8 / 8) (5 : Int).toNat) ∧
      (natToLE (8 / 8) (5 : Int).toNat).length = 8 / 8 ∧
      (fromLE (natToLE (8 / 8) (5 : Int).toNat) : Int) = 5 :=
  (claim_C6_amended 5 8 (Or.inl rfl)).1 (by decide)

/-- C7 counterexample: an emit call with unsupported size 57 raises
    nothing at construction (both instructions are appended, the offending
    one at index 0), and the later failure inside assemble() reports
    position 2 — the total stream length — not the offending index 0. -/
theorem claim_C7_counterexample :
    nth (build 0 cmds7).inses 0 = some ⟨1, .binS (.reg 0) (.reg 1) 57, none⟩ ∧
      (build 0 cmds7).inses.length = 2 ∧
      assemble (build 0 cmds7) = .error (.invalidSize 57 2) := by decide

/-- C7 amended: an emit call with an unsupported operand size raises no
    error at the call; the instruction is appended, and the invalid-size
    exception surfaces only during phase-1 encoding inside assemble(),
    reporting `len(inses)` — the total number of instructions at assemble
    time — rather than the offending instruction's own index. -/
theorem claim_C7_amended (s : AsmState) (pre post : List Ins) (c size m : Nat)
    (d sp : Operand) (bc : Option (List Nat))
    (hs : s.inses = pre ++ (⟨c, .binS d sp size, bc⟩ :: post))
    (hm : binop_modeCore d sp = some m)
    (h64 : size ≠ 64) (h32 : size ≠ 32) (h16 : size ≠ 16) (h8 : size ≠ 8)
    (hok : pre.all (fun x => okB (Ins.make s.inses.length x)) = true) :
    assemble s = .error (.invalidSize size s.inses.length) := by
  have hN : ∀ N, pre.all (fun x => okB (Ins.make N x)) = true →
      encodeAll N s.inses = .error (.invalidSize size N) := by
    intro N hokN
    rw [hs]
    exact encodeAll_append_error N pre _ post _ hokN
      (make_invalid_size N c size d sp m bc hm h64 h32 h16 h8)
  exact assemble_encode_error s _ (hN s.inses.length hok)

/-- Witness for the amended C7 at the concrete size-57 program. -/
theorem claim_C7_witness :
    assemble (build 0 cmds7) = .error (.invalidSize 57 2) :=
  claim_C7_amended (build 0 cmds7) [] [⟨1, .binS (.reg 0) (.reg 1) 64, none⟩] 1 57 0
    (.reg 0) (.reg 1) none (by decide) (by decide) (by decide) (by decide)
    (by decide) (by decide) (by decide)

/-- C8 counterexample: tagging the same label twice raises no error; the
    second tag overwrites the definition site (here from 0 to 1) and the
    label is appended to the `labels` list twice, and assemble() still
    succeeds. -/
theorem claim_C8_counterexample :
    build 1 cmds8 = ⟨[⟨0, .zeroS, none⟩], [⟨0, [], some 1, none⟩], [0, 0]⟩ ∧
      assemble (build 1 cmds8) =
        .ok (⟨[⟨0, .zeroS, some [0]⟩], [⟨0, [], some 1, some 1⟩], [0, 0]⟩, [0]) := by
  decide

/-- C8 amended: a second tag of the same label is silently accepted: it
    overwrites the label's definition site with the current end of the
    stream (last tag wins) and appends the label to the `labels` list a
    second time. -/
theorem claim_C8_amended (s : AsmState) (l : Nat) (lab : Label)
    (h : nth s.store l = some lab) :
    nth (buildStep (buildStep s (.tagC l)) (.tagC l)).store l
      = some { lab with def_site := some s.inses.length } ∧
    (buildStep (buildStep s (.tagC l)) (.tagC l)).tagged = s.tagged ++ [l, l] := by
  have hl : l < s.store.length := nth_lt_length _ _ _ h
  have h1 : nth (setNth s.store l { lab with def_site := some s.inses.length }) l
      = some { lab with def_site := some s.inses.length } :=
    nth_setNth_self _ _ _ hl
  have hl2 : l < (setNth s.store l { lab with def_site := some s.inses.length }).length := by
    rw [length_setNth]; exact hl
  have h2 : nth (setNth (setNth s.store l { lab with def_site := some s.inses.length }) l
        { lab with def_site := some s.inses.length }) l
      = some { lab with def_site := some s.inses.length } :=
    nth_setNth_self _ _ _ hl2
  simp only [buildStep, h, h1]
  exact ⟨h2, by simp⟩

/-- Witness for the amended C8 on a one-instruction program. -/
theorem claim_C8_amended_witness :
    nth (buildStep (buildStep (build 1 [Cmd.zeroC 0]) (.tagC 0)) (.tagC 0)).store 0
      = some ⟨0, [], some 1, none⟩ ∧
    (buildStep (buildStep (build 1 [Cmd.zeroC 0]) (.tagC 0)) (.tagC 0)).tagged = [0, 0] :=
  claim_C8_amended (build 1 [Cmd.zeroC 0]) 0 ⟨0, [], none, none⟩ (by decide)

theorem make_unS_imm (reported c size v : Nat) (bc : Option (List Nat)) (md : Nat)
    (hsz : size2modifier size reported = .ok md)
    (hv : ((v : Int)) < (2 : Int) ^ size) :
    Ins.make reported ⟨c, .unS (.imm (v : Int)) size, bc⟩
      = .ok ⟨c, .unS (.imm (v : Int)) size, some (c :: (7 ||| md) :: natToLE (size / 8) v)⟩ := by
  have hvalid : size = 64 ∨ size = 32 ∨ size = 16 ∨ size = 8 := by
    rcases size2modifier_cases size reported md hsz with ⟨h, _⟩ | ⟨h, _⟩ | ⟨h, _⟩ | ⟨h, _⟩ <;>
      tauto
  have hpack : pack ((v : Int)) size = .ok (natToLE (size / 8) v) := by
    unfold pack
    rw [if_pos hvalid, if_pos ⟨Int.natCast_nonneg v, hv⟩]
    simp
  simp [Ins.make, unop_mode, unop_modeCore, hsz, Operand.make, hpack]

/-- C2: the relative-displacement round trip of Label.rewrite.  At every
    use site holding a unary instruction of a supported width, the rewrite
    replaces the destination with an immediate equal to the two's-
    complement reinterpretation of (resolved offset − offset just past the
    instruction); decoding the patched little-endian operand bytes as a
    signed value of the declared width and adding the offset just past the
    instruction reproduces the resolved offset modulo 2^width. -/
theorem claim_C2 (reported r after use c size : Nat) (d : Operand)
    (bc : Option (List Nat)) (inses inses2 : List Ins)
    (h1 : rewriteOne reported r inses use = .ok inses2)
    (h2 : sumLen inses (use + 1) = .ok after)
    (h3 : nth inses use = some ⟨c, .unS d size, bc⟩)
    (h4 : size = 8 ∨ size = 16 ∨ size = 32 ∨ size = 64) :
    ∃ (v : Nat) (md : Nat),
      (v : Int) = ((r : Int) - (after : Int)) % (2 : Int) ^ size ∧
      nth inses2 use = some ⟨c, .unS (.imm (v : Int)) size,
        some (c :: (7 ||| md) :: natToLE (size / 8) v)⟩ ∧
      fromLE (natToLE (size / 8) v) = v ∧
      (decodeSigned v size + (after : Int)) % (2 : Int) ^ size
        = (r : Int) % (2 : Int) ^ size := by
  have hs2u : signed2unsigned ((r : Int) - (after : Int)) size
      = some ((((r : Int) - (after : Int)) % (2 : Int) ^ size).toNat) := by
    unfold signed2unsigned
    rw [if_pos h4]
  have hmd : ∃ md, size2modifier size reported = .ok md := by
    rcases h4 with h | h | h | h <;> subst h <;> exact ⟨_, rfl⟩
  obtain ⟨md, hsz⟩ := hmd
  have hm : (0 : Int) < 2 ^ size := by positivity
  have h0 : (0 : Int) ≤ ((r : Int) - (after : Int)) % (2 : Int) ^ size :=
    Int.emod_nonneg _ (ne_of_gt hm)
  have hvi : ((((((r : Int) - (after : Int)) % (2 : Int) ^ size).toNat) : Int))
      = ((r : Int) - (after : Int)) % (2 : Int) ^ size := Int.toNat_of_nonneg h0
  have hvlt : ((((((r : Int) - (after : Int)) % (2 : Int) ^ size).toNat) : Int))
      < (2 : Int) ^ size := by
    rw [hvi]; exact Int.emod_lt_of_pos _ hm
  unfold rewriteOne at h1
  simp only [h2, h3] at h1
  simp only [hs2u] at h1
  rw [make_unS_imm reported c size ((((r : Int) - (after : Int)) % (2 : Int) ^ size).toNat)
    bc md hsz hvlt] at h1
  simp only [] at h1
  cases h1
  refine ⟨(((r : Int) - (after : Int)) % (2 : Int) ^ size).toNat, md, hvi, ?_, ?_, ?_⟩
  · exact nth_setNth_self _ _ _ (nth_lt_length _ _ _ h3)
  · have hb : (((r : Int) - (after : Int)) % (2 : Int) ^ size).toNat < 2 ^ size := by
      exact_mod_cast hvlt
    rcases h4 with h | h | h | h <;> subst h <;> rw [fromLE_natToLE _ _ hb]
  · exact sign_roundtrip size r after

/-- Witness for C2 on a one-jmp stream with resolved offset 5 and offset 3
    past the jmp. -/
theorem claim_C2_witness :
    ∃ (v : Nat) (md : Nat),
      (v : Int) = (((5 : Nat) : Int) - ((3 : Nat) : Int)) % (2 : Int) ^ 8 ∧
      nth [(⟨0x13, .unS (.imm 2) 8, some [19, 23, 2]⟩ : Ins)] 0
        = some ⟨0x13, .unS (.imm (v : Int)) 8,
            some (0x13 :: (7 ||| md) :: natToLE (8 / 8) v)⟩ ∧
      fromLE (natToLE (8 / 8) v) = v ∧
      (decodeSigned v 8 + ((3 : Nat) : Int)) % (2 : Int) ^ 8
        = ((5 : Nat) : Int) % (2 : Int) ^ 8 :=
  claim_C2 1 5 3 0 0x13 8 (.labelRef 0) (some [19, 23, 0]) insesC2
    [⟨0x13, .unS (.imm 2) 8, some [19, 23, 2]⟩] (by decide) (by decide) (by decide)
    (by decide)

theorem binop_modeCore_none_of_labelRef (d sp : Operand)
    (h : isLabelRefB d = true ∨ isLabelRefB sp = true) :
    binop_modeCore d sp = none := by
  rcases h with h | h
  · cases d
    case labelRef nm => cases sp <;> rfl
    all_goals simp [isLabelRefB] at h
  · cases sp
    case labelRef nm => cases d <;> rfl
    all_goals simp [isLabelRefB] at h

/-- C10: a binary instruction with a label-reference destination or source
    has no addressing-mode code; phase-1 encoding dies on the unassigned
    `mode` local, so assemble() never returns a buffer for such a
    program. -/
theorem claim_C10 (s : AsmState) (j c size : Nat) (d sp : Operand)
    (bc : Option (List Nat))
    (h1 : nth s.inses j = some ⟨c, .binS d sp size, bc⟩)
    (h2 : isLabelRefB d = true ∨ isLabelRefB sp = true) :
    okB (assemble s) = false := by
  cases hE : encodeAll s.inses.length s.inses with
  | error e => rw [assemble_encode_error s e hE]; rfl
  | ok l1 =>
    exfalso
    obtain ⟨-, hnth⟩ := encodeAll_ok_nth _ _ _ hE
    obtain ⟨i2, hmk, -⟩ := hnth j _ h1
    have hcore := binop_modeCore_none_of_labelRef d sp h2
    simp [Ins.make, binop_mode, hcore] at hmk

/-- Witness for C10 on a mov whose destination is a label reference. -/
theorem claim_C10_witness :
    okB (assemble (build 1 cmds10)) = false :=
  claim_C10 (build 1 cmds10) 0 1 64 (.labelRef 0) (.reg 0) none (by decide)
    (Or.inl (by decide))

theorem nth_mem {α : Type} (xs : List α) (n : Nat) (a : α)
    (h : nth xs n = some a) : a ∈ xs := by
  induction xs generalizing n with
  | nil => simp [nth] at h
  | cons x rest ih =>
    cases n with
    | zero =>
      have : x = a := by simpa [nth] using h
      simp [this]
    | succ m => exact List.mem_cons_of_mem _ (ih m (by simpa [nth] using h))

theorem binop_modeCore_some_no_mention (d sp : Operand) (m l : Nat)
    (h : binop_modeCore d sp = some m) :
    opMentionsB d l = false ∧ opMentionsB sp l = false := by
  cases d with
  | reg n =>
    cases sp with
    | reg n2 => simp [opMentionsB]
    | imm v => simp [opMentionsB]
    | mem a => cases a <;> simp_all [binop_modeCore, opMentionsB]
    | stackMem a => cases a <;> simp_all [binop_modeCore, opMentionsB]
    | labelRef l2 => simp [binop_modeCore] at h
  | imm v => cases sp <;> simp [binop_modeCore] at h
  | mem a =>
    cases sp with
    | reg n2 => cases a <;> simp_all [binop_modeCore, opMentionsB]
    | imm v => simp [binop_modeCore] at h
    | mem a2 => simp [binop_modeCore] at h
    | stackMem a2 => simp [binop_modeCore] at h
    | labelRef l2 => simp [binop_modeCore] at h
  | stackMem a =>
    cases sp with
    | reg n2 => cases a <;> simp_all [binop_modeCore, opMentionsB]
    | imm v => simp [binop_modeCore] at h
    | mem a2 => simp [binop_modeCore] at h
    | stackMem a2 => simp [binop_modeCore] at h
    | labelRef l2 => simp [binop_modeCore] at h
  | labelRef l2 => cases sp <;> simp [binop_modeCore] at h

theorem unop_make_ok_mention (d : Operand) (size md l : Nat) (bs : List Nat)
    (hmode : unop_modeCore d = some md)
    (hmk : Operand.make d size = .ok bs)
    (hl : opMentionsB d l = true) :
    d = .labelRef l := by
  cases d with
  | reg n => simp [opMentionsB] at hl
  | imm v => simp [opMentionsB] at hl
  | mem a =>
    cases a <;> simp_all [opMentionsB, Operand.make]
  | stackMem a => simp [unop_modeCore] at hmode
  | labelRef l2 =>
    have : l2 = l := by simpa [opMentionsB] using hl
    rw [this]

theorem make_ok_mention (N : Nat) (i i2 : Ins) (l : Nat)
    (h : Ins.make N i = .ok i2) (hm : insMentionsB i l = true) :
    ∃ size md, i.shape = .unS (.labelRef l) size ∧
      size2modifier size N = .ok md ∧
      i2 = ⟨i.code, .unS (.labelRef l) size,
        some (i.code :: (7 ||| md) :: natToLE (size / 8) 0)⟩ := by
  obtain ⟨c, shape, bc⟩ := i
  cases shape with
  | zeroS => simp [insMentionsB] at hm
  | binS d sp size =>
    exfalso
    simp only [Ins.make] at h
    cases hb : binop_mode d sp size N with
    | error e => rw [hb] at h; simp at h
    | ok mode =>
      unfold binop_mode at hb
      cases hcore : binop_modeCore d sp with
      | none => rw [hcore] at hb; simp at hb
      | some m =>
        obtain ⟨hd, hsp⟩ := binop_modeCore_some_no_mention d sp m l hcore
        simp [insMentionsB, hd, hsp] at hm
  | unS d size =>
    simp only [Ins.make] at h
    cases hu : unop_mode d size N with
    | error e => rw [hu] at h; simp at h
    | ok mode =>
      rw [hu] at h
      cases hmk : Operand.make d size with
      | error e => rw [hmk] at h; simp at h
      | ok bs =>
        rw [hmk] at h
        unfold unop_mode at hu
        cases hcore : unop_modeCore d with
        | none => rw [hcore] at hu; simp at hu
        | some md0 =>
          rw [hcore] at hu
          cases hsz : size2modifier size N with
          | error e => rw [hsz] at hu; simp at hu
          | ok md =>
            rw [hsz] at hu
            have hdl : d = .labelRef l :=
              unop_make_ok_mention d size md0 l bs hcore hmk
                (by simpa [insMentionsB] using hm)
            subst hdl
            have hmd0 : md0 = 7 := by simpa [unop_modeCore] using hcore.symm
            subst hmd0
            have hmode : mode = 7 ||| md := by simpa using hu.symm
            subst hmode
            have hvalid : size = 64 ∨ size = 32 ∨ size = 16 ∨ size = 8 := by
              rcases size2modifier_cases size N md hsz with ⟨hh, _⟩ | ⟨hh, _⟩ | ⟨hh, _⟩ | ⟨hh, _⟩ <;>
                tauto
            have hbs : bs = natToLE (size / 8) 0 := by
              have : Operand.make (Operand.labelRef l) size = .ok (natToLE (size / 8) 0) := by
                show pack 0 size = _
                unfold pack
                rw [if_pos hvalid, if_pos ⟨le_refl 0, by positivity⟩]
                rfl
              rw [this] at hmk
              exact (Option.some.injEq _ _ ▸ by cases hmk; rfl)
            subst hbs
            refine ⟨size, md, rfl, hsz, ?_⟩
            cases h
            rfl

theorem evalOp_uses (store : List Label) (idx : Nat) (sp : OpSpec) :
    ∀ l lab2, nth (evalOp store idx sp).1 l = some lab2 →
      ∃ lab, nth store l = some lab ∧
        ∀ u, u ∈ lab2.use_sites →
          u ∈ lab.use_sites ∨ (u = idx ∧ opMentionsB (evalOp store idx sp).2 l = true) := by
  induction sp with
  | regS n => exact fun l lab2 h => ⟨lab2, h, fun u hu => Or.inl hu⟩
  | immS v => exact fun l lab2 h => ⟨lab2, h, fun u hu => Or.inl hu⟩
  | memS a ih =>
    intro l lab2 h
    obtain ⟨lab, hlab, hus⟩ := ih l lab2 (by simpa [evalOp] using h)
    refine ⟨lab, hlab, fun u hu => (hus u hu).imp id ?_⟩
    rintro ⟨h1, h2⟩
    exact ⟨h1, by simpa [evalOp, opMentionsB] using h2⟩
  | stackS a ih =>
    intro l lab2 h
    obtain ⟨lab, hlab, hus⟩ := ih l lab2 (by simpa [evalOp] using h)
    refine ⟨lab, hlab, fun u hu => (hus u hu).imp id ?_⟩
    rintro ⟨h1, h2⟩
    exact ⟨h1, by simpa [evalOp, opMentionsB] using h2⟩
  | refS l2 =>
    intro l lab2 h
    cases hn : nth store l2 with
    | none =>
      refine ⟨lab2, ?_, fun u hu => Or.inl hu⟩
      simpa [evalOp, hn] using h
    | some lab0 =>
      by_cases hl : l2 = l
      · subst hl
        have hlt := nth_lt_length _ _ _ hn
        have h2 : nth (setNth store l2 { lab0 with use_sites := lab0.use_sites ++ [idx] }) l2
            = some { lab0 with use_sites := lab0.use_sites ++ [idx] } :=
          nth_setNth_self _ _ _ hlt
        have hlab2 : lab2 = { lab0 with use_sites := lab0.use_sites ++ [idx] } := by
          have h3 : nth (setNth store l2 { lab0 with use_sites := lab0.use_sites ++ [idx] }) l2
              = some lab2 := by simpa [evalOp, hn] using h
          rw [h2] at h3
          cases h3
          rfl
        refine ⟨lab0, hn, ?_⟩
        intro u hu
        rw [hlab2] at hu
        simp only [List.mem_append, List.mem_singleton] at hu
        rcases hu with hu | hu
        · exact Or.inl hu
        · exact Or.inr ⟨hu, by simp [evalOp, hn, opMentionsB]⟩
      · have heq : nth (setNth store l2 { lab0 with use_sites := lab0.use_sites ++ [idx] }) l
            = nth store l := nth_setNth_other _ _ _ _ hl
        refine ⟨lab2, ?_, fun u hu => Or.inl hu⟩
        rw [← heq]
        simpa [evalOp, hn] using h

theorem buildStep_inv (s : AsmState) (c : Cmd) (h : InvUses s) :
    InvUses (buildStep s c) := by
  cases c with
  | zeroC code =>
    intro l lab hl u hu
    obtain ⟨i, hi, hm⟩ := h l lab (by simpa [buildStep] using hl) u hu
    refine ⟨i, ?_, hm⟩
    have hlt := nth_lt_length _ _ _ hi
    show nth (s.inses ++ [⟨code, .zeroS, none⟩]) u = some i
    rw [nth_append_left _ _ _ hlt]
    exact hi
  | tagC l2 =>
    intro l lab hl u hu
    cases hn : nth s.store l2 with
    | none =>
      obtain ⟨i, hi, hm⟩ := h l lab (by simpa [buildStep, hn] using hl) u hu
      exact ⟨i, by simpa [buildStep, hn] using hi, hm⟩
    | some lab0 =>
      by_cases he : l2 = l
      · subst he
        have hlt := nth_lt_length _ _ _ hn
        have h2 := nth_setNth_self s.store l2
          { lab0 with def_site := some s.inses.length } hlt
        have hlab : lab = { lab0 with def_site := some s.inses.length } := by
          have h3 : nth (setNth s.store l2 { lab0 with def_site := some s.inses.length }) l2
              = some lab := by simpa [buildStep, hn] using hl
          rw [h2] at h3
          cases h3
          rfl
        obtain ⟨i, hi, hm⟩ := h l2 lab0 hn u (by rw [hlab] at hu; simpa using hu)
        exact ⟨i, by simpa [buildStep, hn] using hi, hm⟩
      · have heq := nth_setNth_other s.store l2 l
          { lab0 with def_site := some s.inses.length } he
        have hl2 : nth s.store l = some lab := by
          rw [← heq]
          simpa [buildStep, hn] using hl
        obtain ⟨i, hi, hm⟩ := h l lab hl2 u hu
        exact ⟨i, by simpa [buildStep, hn] using hi, hm⟩
  | unC code size d =>
    intro l lab hl u hu
    obtain ⟨lab0, hlab0, hus⟩ := evalOp_uses s.store s.inses.length d l lab
      (by simpa [buildStep] using hl)
    rcases hus u hu with hold | ⟨rfl, hment⟩
    · obtain ⟨i, hi, hm⟩ := h l lab0 hlab0 u hold
      refine ⟨i, ?_, hm⟩
      have hlt := nth_lt_length _ _ _ hi
      show nth (s.inses ++ [⟨code, .unS (evalOp s.store s.inses.length d).2 size, none⟩]) u
        = some i
      rw [nth_append_left _ _ _ hlt]
      exact hi
    · refine ⟨⟨code, .unS (evalOp s.store s.inses.length d).2 size, none⟩, ?_, ?_⟩
      · show nth (s.inses ++ [⟨code, .unS (evalOp s.store s.inses.length d).2 size, none⟩])
          s.inses.length = _
        exact nth_append_self _ _
      · simp [insMentionsB, hment]
  | binC code size d sq =>
    intro l lab hl u hu
    obtain ⟨lab1, hlab1, hus2⟩ := evalOp_uses (evalOp s.store s.inses.length d).1
      s.inses.length sq l lab (by simpa [buildStep] using hl)
    obtain ⟨lab0, hlab0, hus1⟩ := evalOp_uses s.store s.inses.length d l lab1 hlab1
    have hnew : nth (s.inses ++
        [⟨code, .binS (evalOp s.store s.inses.length d).2
            (evalOp (evalOp s.store s.inses.length d).1 s.inses.length sq).2 size, none⟩])
        s.inses.length
        = some ⟨code, .binS (evalOp s.store s.inses.length d).2
            (evalOp (evalOp s.store s.inses.length d).1 s.inses.length sq).2 size, none⟩ :=
      nth_append_self _ _
    rcases hus2 u hu with h2 | ⟨rfl, hm2⟩
    · rcases hus1 u h2 with h1 | ⟨rfl, hm1⟩
      · obtain ⟨i, hi, hm⟩ := h l lab0 hlab0 u h1
        refine ⟨i, ?_, hm⟩
        have hlt := nth_lt_length _ _ _ hi
        show nth (s.inses ++ [_]) u = some i
        rw [nth_append_left _ _ _ hlt]
        exact hi
      · exact ⟨_, hnew, by simp [insMentionsB, hm1]⟩
    · exact ⟨_, hnew, by simp [insMentionsB, hm2]⟩

theorem build_inv (k : Nat) (cmds : List Cmd) : InvUses (build k cmds) := by
  have hinit : InvUses (initState k) := by
    intro l lab hl u hu
    exfalso
    have hmem := nth_mem _ _ _ hl
    simp only [initState, List.mem_map] at hmem
    obtain ⟨i, -, hi⟩ := hmem
    rw [← hi] at hu
    simp at hu
  suffices hstep : ∀ (cs : List Cmd) (s : AsmState), InvUses s →
      InvUses (cs.foldl buildStep s) by
    exact hstep cmds _ hinit
  intro cs
  induction cs with
  | nil => exact fun s hs => hs
  | cons c rest ih => exact fun s hs => ih _ (buildStep_inv s c hs)

theorem resolve_use_sites (inses : List Ins) (lab lab2 : Label)
    (h : Label.resolve inses lab = .ok lab2) : lab2.use_sites = lab.use_sites := by
  unfold Label.resolve at h
  cases hd : lab.def_site with
  | none => simp only [hd] at h; simp at h
  | some d =>
    simp only [hd] at h
    cases hs : sumLen inses d with
    | error e => rw [hs] at h; simp at h
    | ok off => rw [hs] at h; cases h; rfl

theorem resolveAll_nth (inses : List Ins) (store store2 : List Label) (tl : List Nat)
    (h : resolveAll inses store tl = .ok store2) :
    ∀ l lab2, nth store2 l = some lab2 →
      ∃ lab, nth store l = some lab ∧ lab2.use_sites = lab.use_sites := by
  induction tl generalizing store with
  | nil =>
    simp only [resolveAll] at h
    cases h
    exact fun l lab2 hl => ⟨lab2, hl, rfl⟩
  | cons t rest ih =>
    simp only [resolveAll] at h
    cases hn : nth store t with
    | none => rw [hn] at h; simp at h
    | some lab0 =>
      simp only [hn] at h
      cases hr : Label.resolve inses lab0 with
      | error e => rw [hr] at h; simp at h
      | ok lab1 =>
        simp only [hr] at h
        intro l lab2 hl
        obtain ⟨lab, hlab, hus⟩ := ih _ h l lab2 hl
        by_cases he : t = l
        · subst he
          have hlt := nth_lt_length _ _ _ hn
          rw [nth_setNth_self _ _ _ hlt] at hlab
          cases hlab
          exact ⟨lab0, hn, hus.trans (resolve_use_sites inses lab0 lab1 hr)⟩
        · rw [nth_setNth_other _ _ _ _ he] at hlab
          exact ⟨lab, hlab, hus⟩

theorem phase1_use_sites (k : Nat) (cmds : List Cmd) (l1 : List Ins)
    (hE : encodeAll (build k cmds).inses.length (build k cmds).inses = .ok l1) :
    ∀ l lab, nth (build k cmds).store l = some lab → ∀ u, u ∈ lab.use_sites →
      ∃ size md, size2modifier size (build k cmds).inses.length = .ok md ∧
        ∃ c, nth l1 u = some ⟨c, .unS (.labelRef l) size,
          some (c :: (7 ||| md) :: natToLE (size / 8) 0)⟩ := by
  intro l lab hl u hu
  obtain ⟨i, hi, hm⟩ := build_inv k cmds l lab hl u hu
  obtain ⟨-, hnth⟩ := encodeAll_ok_nth _ _ _ hE
  obtain ⟨i2, hmk, hn2⟩ := hnth u i hi
  obtain ⟨size, md, hshape, hsz, hi2⟩ := make_ok_mention _ i i2 l hmk hm
  refine ⟨size, md, hsz, i.code, ?_⟩
  rw [hn2, hi2]

theorem rewriteOne_RInv (store2 : List Label) (l1 inses inses2 : List Ins) (N r u0 : Nat)
    (hR : RInv store2 l1 inses)
    (c0 : Nat) (dest0 : Operand) (size0 : Nat) (bc0 : List Nat)
    (hvalid : size0 = 8 ∨ size0 = 16 ∨ size0 = 32 ∨ size0 = 64)
    (hnth : nth inses u0 = some ⟨c0, .unS dest0 size0, some bc0⟩)
    (hlen : bc0.length = 2 + size0 / 8)
    (h : rewriteOne N r inses u0 = .ok inses2) :
    RInv store2 l1 inses2 := by
  unfold rewriteOne at h
  cases hs : sumLen inses (u0 + 1) with
  | error e => rw [hs] at h; simp at h
  | ok offset =>
    simp only [hs] at h
    simp only [hnth] at h
    have hs2u : signed2unsigned ((r : Int) - (offset : Int)) size0
        = some ((((r : Int) - (offset : Int)) % (2 : Int) ^ size0).toNat) := by
      unfold signed2unsigned
      rw [if_pos hvalid]
    simp only [hs2u] at h
    have hmd : ∃ md, size2modifier size0 N = .ok md := by
      rcases hvalid with h4 | h4 | h4 | h4 <;> subst h4 <;> exact ⟨_, rfl⟩
    obtain ⟨md, hsz⟩ := hmd
    have hmpos : (0 : Int) < 2 ^ size0 := by positivity
    have h0 : (0 : Int) ≤ ((r : Int) - (offset : Int)) % (2 : Int) ^ size0 :=
      Int.emod_nonneg _ (ne_of_gt hmpos)
    have hvlt : ((((((r : Int) - (offset : Int)) % (2 : Int) ^ size0).toNat) : Int))
        < (2 : Int) ^ size0 := by
      rw [Int.toNat_of_nonneg h0]
      exact Int.emod_lt_of_pos _ hmpos
    rw [make_unS_imm N c0 size0 ((((r : Int) - (offset : Int)) % (2 : Int) ^ size0).toNat)
      (some bc0) md hsz hvlt] at h
    simp only [] at h
    cases h
    have hu0lt := nth_lt_length _ _ _ hnth
    have hnew := nth_setNth_self inses u0
      (⟨c0, .unS (.imm (((((r : Int) - (offset : Int)) % (2 : Int) ^ size0).toNat : Nat) : Int))
          size0,
        some (c0 :: (7 ||| md) ::
          natToLE (size0 / 8) (((r : Int) - (offset : Int)) % (2 : Int) ^ size0).toNat)⟩ : Ins)
      hu0lt
    constructor
    · intro j
      by_cases hj : u0 = j
      · subst hj
        have hold : lenAt inses u0 = some (2 + size0 / 8) := by
          unfold lenAt
          simp only [hnth, Option.map]
          rw [hlen]
        have hnewlen : lenAt (setNth inses u0
            (⟨c0, .unS (.imm (((((r : Int) - (offset : Int)) % (2 : Int) ^ size0).toNat : Nat) : Int))
                size0,
              some (c0 :: (7 ||| md) ::
                natToLE (size0 / 8) (((r : Int) - (offset : Int)) % (2 : Int) ^ size0).toNat)⟩ : Ins))
            u0 = some (2 + size0 / 8) := by
          unfold lenAt
          simp only [hnew, Option.map, List.length_cons, natToLE_length]
          congr 1
          omega
        rw [hnewlen, ← hR.1 u0, hold]
      · have hother : lenAt (setNth inses u0
            (⟨c0, .unS (.imm (((((r : Int) - (offset : Int)) % (2 : Int) ^ size0).toNat : Nat) : Int))
                size0,
              some (c0 :: (7 ||| md) ::
                natToLE (size0 / 8) (((r : Int) - (offset : Int)) % (2 : Int) ^ size0).toNat)⟩ : Ins))
            j = lenAt inses j := by
          unfold lenAt
          rw [nth_setNth_other _ _ _ _ hj]
        rw [hother]
        exact hR.1 j
    · intro l lab hl u hu
      obtain ⟨c', dest', size', bc', hvalid', hn', hlen'⟩ := hR.2 l lab hl u hu
      by_cases hj : u0 = u
      · subst hj
        rw [hnth] at hn'
        cases hn'
        refine ⟨c0, _, size0, _, hvalid, hnew, ?_⟩
        simp only [List.length_cons, natToLE_length]
        omega
      · exact ⟨c', dest', size', bc', hvalid',
          by rw [nth_setNth_other _ _ _ _ hj]; exact hn', hlen'⟩

theorem rewriteUses_RInv (store2 : List Label) (l1 : List Ins) (N r : Nat)
    (l0 : Nat) (lab0 : Label) (hl0 : nth store2 l0 = some lab0)
    (us : List Nat) (hsub : ∀ u, u ∈ us → u ∈ lab0.use_sites) :
    ∀ inses inses2, RInv store2 l1 inses → rewriteUses N r inses us = .ok inses2 →
      RInv store2 l1 inses2 := by
  induction us with
  | nil =>
    intro inses inses2 hR h
    simp only [rewriteUses] at h
    cases h
    exact hR
  | cons u rest ih =>
    intro inses inses2 hR h
    simp only [rewriteUses] at h
    cases ho : rewriteOne N r inses u with
    | error e => rw [ho] at h; simp at h
    | ok insesM =>
      rw [ho] at h
      obtain ⟨c', dest', size', bc', hvalid', hn', hlen'⟩ :=
        hR.2 l0 lab0 hl0 u (hsub u (by simp))
      have hRM := rewriteOne_RInv store2 l1 inses insesM N r u hR c' dest' size' bc'
        hvalid' hn' hlen' ho
      exact ih (fun u2 hu2 => hsub u2 (by simp [hu2])) insesM inses2 hRM h

theorem rewriteAll_RInv (store2 : List Label) (l1 : List Ins) (N : Nat) :
    ∀ (tl : List Nat) (inses inses2 : List Ins), RInv store2 l1 inses →
      rewriteAll N store2 inses tl = .ok inses2 → RInv store2 l1 inses2 := by
  intro tl
  induction tl with
  | nil =>
    intro inses inses2 hR h
    simp only [rewriteAll] at h
    cases h
    exact hR
  | cons t rest ih =>
    intro inses inses2 hR h
    simp only [rewriteAll] at h
    cases hn : nth store2 t with
    | none => rw [hn] at h; simp at h
    | some lab =>
      simp only [hn] at h
      cases hw : Label.rewrite N lab inses with
      | error e => rw [hw] at h; simp at h
      | ok insesM =>
        rw [hw] at h
        have hRM : RInv store2 l1 insesM := by
          unfold Label.rewrite at hw
          cases hres : lab.resolved with
          | none => rw [hres] at hw; simp at hw
          | some r =>
            simp only [hres] at hw
            exact rewriteUses_RInv store2 l1 N r t lab hn lab.use_sites
              (fun u hu => hu) inses insesM hR hw
        exact ih insesM inses2 hRM h

/-- C4: length stability under relocation.  In every program built through
    the construction API that assembles successfully, every instruction's
    byte length after the phase-3 rewrite pass equals its byte length from
    the phase-1 encode pass. -/
theorem claim_C4 (k : Nat) (cmds : List Cmd) (s2 : AsmState) (b : List Nat)
    (l1 : List Ins) (j : Nat)
    (hA : assemble (build k cmds) = .ok (s2, b))
    (hE : encodeAll (build k cmds).inses.length (build k cmds).inses = .ok l1) :
    lenAt s2.inses j = lenAt l1 j := by
  unfold assemble at hA
  simp only [hE] at hA
  cases hres : resolveAll l1 (build k cmds).store (build k cmds).tagged with
  | error e => rw [hres] at hA; simp at hA
  | ok store2 =>
    simp only [hres] at hA
    cases hrw : rewriteAll (build k cmds).inses.length store2 l1 (build k cmds).tagged with
    | error e => rw [hrw] at hA; simp at hA
    | ok inses3 =>
      simp only [hrw] at hA
      cases hcat : concatAll inses3 with
      | error e => rw [hcat] at hA; simp at hA
      | ok buf0 =>
        rw [hcat] at hA
        simp only [] at hA
        have hR0 : RInv store2 l1 l1 := by
          constructor
          · intro j2
            rfl
          · intro l lab hl u hu
            obtain ⟨lab0, hlab0, hus⟩ := resolveAll_nth l1 _ _ _ hres l lab hl
            rw [hus] at hu
            obtain ⟨size, md, hsz, c, hn⟩ := phase1_use_sites k cmds l1 hE l lab0 hlab0 u hu
            have hvalid : size = 8 ∨ size = 16 ∨ size = 32 ∨ size = 64 := by
              rcases size2modifier_cases size _ md hsz with ⟨hh, -⟩ | ⟨hh, -⟩ | ⟨hh, -⟩ | ⟨hh, -⟩ <;>
                tauto
            refine ⟨c, .labelRef l, size, _, hvalid, hn, ?_⟩
            simp [natToLE_length]
            omega
        have hR3 := rewriteAll_RInv store2 l1 (build k cmds).inses.length
          (build k cmds).tagged l1 inses3 hR0 hrw
        have hs2 : s2 = { build k cmds with inses := inses3, store := store2 } := by
          cases hA
          rfl
        rw [hs2]
        exact hR3.1 j

/-- Witness for C4 on a concrete one-jmp program with a 64-bit label
    operand. -/
theorem claim_C4_witness :
    lenAt (⟨[⟨0x13, .unS (.imm 0) 64, some [19, 71, 0, 0, 0, 0, 0, 0, 0, 0]⟩],
            [⟨0, [0], some 1, some 10⟩], [0]⟩ : AsmState).inses 0
      = lenAt [⟨0x13, .unS (.labelRef 0) 64, some [19, 71, 0, 0, 0, 0, 0, 0, 0, 0]⟩] 0 :=
  claim_C4 1 cmds4w
    ⟨[⟨0x13, .unS (.imm 0) 64, some [19, 71, 0, 0, 0, 0, 0, 0, 0, 0]⟩],
     [⟨0, [0], some 1, some 10⟩], [0]⟩
    [19, 71, 0, 0, 0, 0, 0, 0, 0, 0]
    [⟨0x13, .unS (.labelRef 0) 64, some [19, 71, 0, 0, 0, 0, 0, 0, 0, 0]⟩] 0
    (by decide) (by decide)

end Asm

